import Mathlib

/-!
Shallow embedding of the tab/webview orchestration layer of AnyBrain
(src/src/App.tsx): JS string helpers, the tab data model, the event
handlers, the reactive reconciliation effects, and the persistence
startup/save logic, together with theorems settling the specification
claims about them.
-/

namespace AnyBrain

/-- Character class of ECMAScript WhiteSpace and LineTerminator: the set of
characters removed by the JS String.prototype.trim calls in App.tsx. -/
def isJsWhitespace (c : Char) : Bool :=
  c = ' ' || c = '\t' || c = '\n' || c = '\r' ||
  c = '\x0b' || c = '\x0c' ||
  c.toNat = 0xa0 || c.toNat = 0xfeff ||
  c.toNat = 0x1680 || (0x2000 ≤ c.toNat && c.toNat ≤ 0x200a) ||
  c.toNat = 0x2028 || c.toNat = 0x2029 ||
  c.toNat = 0x202f || c.toNat = 0x205f || c.toNat = 0x3000

/-- Leading-whitespace removal on the character list. -/
def trimLeftChars (l : List Char) : List Char := l.dropWhile isJsWhitespace

/-- Trailing-whitespace removal on the character list. -/
def trimRightChars (l : List Char) : List Char :=
  (l.reverse.dropWhile isJsWhitespace).reverse

/-- Character-list core of JS `value.trim()`. -/
def jsTrimChars (l : List Char) : List Char := trimRightChars (trimLeftChars l)

/-- JS `value.trim()` as used throughout App.tsx. -/
def jsTrim (s : String) : String := String.mk (jsTrimChars s.data)

/-- Characters allowed after the first letter of a URL scheme by the regex
character class `[a-zA-Z\d+\-.]` in `normalizeUrl` (App.tsx line 82). -/
def isSchemeChar (c : Char) : Bool :=
  c.isAlpha || c.isDigit || c = '+' || c = '-' || c = '.'

/-- Scans the characters after the leading letter of a candidate scheme: a run
of scheme characters must be followed by the literal `://`.  This mirrors the
regex in `normalizeUrl`; the scan is deterministic because `:` is not a
scheme character, so the greedy star never backtracks. -/
def schemeTail : List Char → Bool
  | [] => false
  | c :: rest =>
    if c = ':' then
      match rest with
      | '/' :: '/' :: _ => true
      | _ => false
    else if isSchemeChar c then schemeTail rest
    else false

/-- Character-list core of the regex test `^[a-zA-Z][a-zA-Z\d+\-.]*:\/\/`. -/
def hasSchemeChars : List Char → Bool
  | [] => false
  | c :: rest => c.isAlpha && schemeTail rest

/-- The regex test `^[a-zA-Z][a-zA-Z\d+\-.]*:\/\/` of `normalizeUrl`. -/
def hasScheme (s : String) : Bool := hasSchemeChars s.data

/-- The characters of the literal `https://` prepended by `normalizeUrl`. -/
def httpsChars : List Char := ['h', 't', 't', 'p', 's', ':', '/', '/']

/-- Character-list core of `normalizeUrl` (App.tsx lines 79-84). -/
def normalizeUrlChars (l : List Char) : List Char :=
  let trimmed := jsTrimChars l
  if trimmed = [] then []
  else if hasSchemeChars trimmed then trimmed
  else httpsChars ++ trimmed

/-- App.tsx `normalizeUrl`: trim; empty input stays empty; input with an
explicit scheme is kept; anything else gets `https://` prepended. -/
def normalizeUrl (value : String) : String := String.mk (normalizeUrlChars value.data)

/-- Remainder of a candidate scheme after its leading letter, returning the
characters following `://` when present (helper for the URL-hostname model). -/
def afterSchemeTail : List Char → Option (List Char)
  | [] => none
  | c :: rest =>
    if c = ':' then
      match rest with
      | '/' :: '/' :: r => some r
      | _ => none
    else if isSchemeChar c then afterSchemeTail rest
    else none

/-- Characters following `scheme://` when the input starts with a scheme. -/
def afterScheme : List Char → Option (List Char)
  | [] => none
  | c :: rest => if c.isAlpha then afterSchemeTail rest else none

/-- Characters after the last `@` of an authority component (the WHATWG URL
host begins after the userinfo, which ends at the last `@`). -/
def afterLastAt (l : List Char) : List Char :=
  (l.reverse.takeWhile (fun c => !(c = '@'))).reverse

/-- Model of the external browser API `new URL(value).hostname` for absolute
`scheme://` URLs (the shapes this app passes it): the authority is the
segment after `://` up to the first `/`, `?` or `#`; userinfo before the last
`@` and a `:port` suffix are dropped; ASCII letters are lowercased; a URL
with no scheme or an empty host does not parse (the constructor throws). -/
def urlHostname (value : String) : Option String :=
  match afterScheme value.data with
  | none => none
  | some rest =>
    let authority := rest.takeWhile (fun c => !(c = '/') && !(c = '?') && !(c = '#'))
    let host := (afterLastAt authority).takeWhile (fun c => !(c = ':'))
    if host = [] then none else some (String.mk (host.map Char.toLower))

/-- The regex replace `hostname.replace(/^www\./, '')` of `deriveNameFromUrl`. -/
def stripWww (h : String) : String :=
  match h.data with
  | 'w' :: 'w' :: 'w' :: '.' :: rest => String.mk rest
  | _ => h

/-- App.tsx `deriveNameFromUrl` (lines 86-93): the hostname with a leading
`www.` stripped; the fixed fallback label when the URL does not parse or the
stripped hostname is empty. -/
def deriveNameFromUrl (value : String) : String :=
  match urlHostname value with
  | none => "新标签"
  | some h => if stripWww h = "" then "新标签" else stripWww h

/-- Character-list core of the JS `replace(/\s+/g, '-')` used for generated
ids: each maximal whitespace run becomes a single `-`. -/
def collapseWsChars : List Char → List Char
  | [] => []
  | c :: rest =>
    if isJsWhitespace c then '-' :: collapseWsChars (rest.dropWhile isJsWhitespace)
    else c :: collapseWsChars rest
termination_by l => l.length
decreasing_by
  · simp only [List.length_cons]
    exact Nat.lt_succ_of_le (List.dropWhile_sublist isJsWhitespace).length_le
  · simp

/-- The id-slug computation `name.toLowerCase().replace(/\s+/g, '-')`
(lowercasing modelled on ASCII letters). -/
def slugify (s : String) : String := String.mk (collapseWsChars (s.data.map Char.toLower))

/-- A tab record (App.tsx `Platform`): the optional `hidden?` flag is
modelled as a `Bool` whose default `false` matches JS treating a missing
flag as falsy. -/
structure Platform where
  id : String
  name : String
  url : String
  hidden : Bool := false
deriving DecidableEq, Repr

/-- The four outbound operations of the webview lifecycle bridge invoked by
App.tsx (`create_or_show_webview`, `hide_all_webviews`, `destroy_webview`,
`reload_webview`); `topOffset` only ever takes the whole values 70 and 78. -/
inductive BridgeCall where
  | showOrCreate (platformId : String) (url : String) (topOffset : Nat)
  | hideAll
  | destroy (platformId : String)
  | reload (platformId : String)
deriving DecidableEq, Repr

/-- The orchestrator state of the `App` component: the persistent platform
list, the session-only ephemeral tabs, the active tab id, the two overlay
flags, and the ordered log of bridge calls issued so far. -/
structure AppState where
  platforms : List Platform
  tempTabs : List Platform
  activeTab : String
  showSettings : Bool
  showQuickAdd : Bool
  calls : List BridgeCall
deriving DecidableEq, Repr

/-- JS `list.length ? list[0].id : ''` as used for selection fallbacks. -/
def firstId : List Platform → String
  | [] => ""
  | p :: _ => p.id

/-- The combined visible-tab sequence: non-hidden persistent tabs in registry
order, then ephemeral tabs in creation order. -/
def visibleSeq (s : AppState) : List Platform :=
  s.platforms.filter (fun p => !p.hidden) ++ s.tempTabs

/-- Ids of the combined visible-tab sequence. -/
def visibleIds (s : AppState) : List String := (visibleSeq s).map (·.id)

/-- Ids of every record known to the core, hidden ones included. -/
def allIds (s : AppState) : List String := (s.platforms ++ s.tempTabs).map (·.id)

/-- Ids of the hidden persistent tabs. -/
def hiddenIds (s : AppState) : List String :=
  (s.platforms.filter (fun p => p.hidden)).map (·.id)

/-- The test `platforms.find(p => p.id === activeTab)?.hidden` of the
active-tab reconciliation effect (App.tsx line 176); a failed find is falsy. -/
def activeResolvesHidden (s : AppState) : Bool :=
  match s.platforms.find? (fun p => p.id == s.activeTab) with
  | some p => p.hidden
  | none => false

/-- The active-tab reconciliation effect (App.tsx lines 172-179): when the
visible sequence is non-empty and the active id is empty or resolves to a
hidden platform, select the first element of the visible sequence. -/
def reconcile (s : AppState) : AppState :=
  match s.platforms.filter (fun p => !p.hidden) ++ s.tempTabs with
  | [] => s
  | p :: _ =>
    if s.activeTab = "" ∨ activeResolvesHidden s = true then {s with activeTab := p.id}
    else s

/-- `handleAddPlatform` (App.tsx lines 275-287), with the form fields and the
`Date.now()` timestamp as parameters. -/
def handleAddPlatform (name url : String) (now : Nat) (s : AppState) : AppState :=
  if jsTrim name = "" ∨ jsTrim url = "" then s
  else
    let id := slugify name ++ "-" ++ toString now
    { s with
      platforms := s.platforms ++ [{ id := id, name := jsTrim name, url := normalizeUrl url }],
      activeTab := id }

/-- `handleQuickAdd` (App.tsx lines 289-301). -/
def handleQuickAdd (qname qurl : String) (now : Nat) (s : AppState) : AppState :=
  if jsTrim qurl = "" then s
  else
    let finalUrl := normalizeUrl qurl
    let displayName := if jsTrim qname = "" then deriveNameFromUrl finalUrl else jsTrim qname
    let base := slugify displayName
    let baseId := if base = "" then "tmp" else base
    let id := "tmp-" ++ baseId ++ "-" ++ toString now
    { s with
      tempTabs := s.tempTabs ++ [{ id := id, name := displayName, url := finalUrl }],
      activeTab := id, showQuickAdd := false }

/-- The `+` tab-strip button (App.tsx lines 426-436): creates a blank
placeholder ephemeral tab and opens the quick-add popover. -/
def openBlankTab (now : Nat) (s : AppState) : AppState :=
  if s.showSettings then s
  else if s.showQuickAdd then s
  else
    let id := "tmp-new-" ++ toString now
    { s with
      tempTabs := s.tempTabs ++ [{ id := id, name := "新标签", url := "" }],
      activeTab := id, showQuickAdd := true }

/-- The quick-add commit action (Enter / confirm button, App.tsx lines
463-477 and 500-513): fill in the active blank placeholder, or fall through
to `handleQuickAdd`. -/
def commitQuickAdd (qname qurl : String) (now : Nat) (s : AppState) : AppState :=
  match s.tempTabs.find? (fun p => p.id == s.activeTab) with
  | some ct =>
    if jsTrim ct.url = "" then
      if normalizeUrl qurl = "" then s
      else
        { s with
          tempTabs := s.tempTabs.map
            (fun p =>
              if p.id == ct.id then
                { p with
                  name :=
                    if jsTrim qname = "" then deriveNameFromUrl (normalizeUrl qurl)
                    else jsTrim qname,
                  url := normalizeUrl qurl }
              else p),
          showQuickAdd := false }
    else handleQuickAdd qname qurl now s
  | none => handleQuickAdd qname qurl now s

/-- The quick-add cancel action (App.tsx lines 481-495): close the popover
and drop the active blank placeholder, selection falling back to the first
record of platforms-then-remaining-ephemeral. -/
def cancelQuickAdd (s : AppState) : AppState :=
  let s1 := { s with showQuickAdd := false }
  match s.tempTabs.find? (fun p => p.id == s.activeTab) with
  | some ct =>
    if jsTrim ct.url = "" then
      let updated := s.tempTabs.filter (fun p => !(p.id == s.activeTab))
      { s1 with tempTabs := updated, activeTab := firstId (s.platforms ++ updated) }
    else s1
  | none => s1

/-- `handleRemovePlatform` (App.tsx lines 303-312): issue `destroy`, filter
the record out, and when it was active fall back to the first remaining
platform (hidden or not) or the empty id. -/
def handleRemovePlatform (id : String) (s : AppState) : AppState :=
  let updated := s.platforms.filter (fun p => !(p.id == id))
  { s with
    calls := s.calls ++ [BridgeCall.destroy id],
    platforms := updated,
    activeTab := if s.activeTab = id then firstId updated else s.activeTab }

/-- `handleCloseTab` (App.tsx lines 331-354): always issue `destroy`; an
ephemeral tab is removed, a persistent tab is marked hidden; when the closed
tab was active, selection falls back per the respective combined list. -/
def handleCloseTab (id : String) (s : AppState) : AppState :=
  let s1 := { s with calls := s.calls ++ [BridgeCall.destroy id] }
  if s.tempTabs.any (fun p => p.id == id) then
    let tempAfter := s.tempTabs.filter (fun p => !(p.id == id))
    { s1 with
      tempTabs := tempAfter,
      activeTab := if s.activeTab = id then firstId (s.platforms ++ tempAfter) else s.activeTab }
  else
    let updated := s.platforms.map (fun p => if p.id == id then { p with hidden := true } else p)
    { s1 with
      platforms := updated,
      activeTab :=
        if s.activeTab = id then firstId (updated.filter (fun p => !p.hidden) ++ s.tempTabs)
        else s.activeTab }

/-- The two directions of `handleMovePlatform`. -/
inductive MoveDir where
  | up
  | down
deriving DecidableEq, Repr

/-- Swap the adjacent elements at positions `n` and `n + 1`; out-of-range
positions leave the list unchanged (the UI only passes indices of rendered
elements, so both positions are always in range). -/
def swapAdjAt {α : Type} : List α → Nat → List α
  | [], _ => []
  | [x], _ => [x]
  | x :: y :: rest, 0 => y :: x :: rest
  | x :: y :: rest, n + 1 => x :: swapAdjAt (y :: rest) n

/-- `handleMovePlatform` (App.tsx lines 314-324): swap with the adjacent
element, a no-op at the boundaries. -/
def handleMovePlatform (index : Nat) (dir : MoveDir) (s : AppState) : AppState :=
  { s with
    platforms :=
      match dir with
      | .up => if 0 < index then swapAdjAt s.platforms (index - 1) else s.platforms
      | .down =>
        if index + 1 < s.platforms.length then swapAdjAt s.platforms index else s.platforms }

/-- The `new_tab_request` listener (App.tsx lines 206-224): a non-empty
payload appends a fully-formed ephemeral tab named from the URL and makes it
active. -/
def newTabRequest (url : String) (now : Nat) (s : AppState) : AppState :=
  if url = "" then s
  else
    let id := "tmp-" ++ toString now
    { s with
      tempTabs := s.tempTabs ++ [{ id := id, name := deriveNameFromUrl url, url := url }],
      activeTab := id }

/-- `toggleSettings` (App.tsx lines 226-246): opening hides all webviews and
enters the overlay; closing leaves the overlay and re-shows the active
non-hidden persistent platform when one exists. -/
def toggleSettings (s : AppState) : AppState :=
  if s.showSettings = false then
    { s with calls := s.calls ++ [BridgeCall.hideAll], showSettings := true, showQuickAdd := false }
  else
    let s1 := { s with showSettings := false }
    match s.platforms.find? (fun p => p.id == s.activeTab && !p.hidden) with
    | some p => { s1 with calls := s1.calls ++ [BridgeCall.showOrCreate p.id p.url 78] }
    | none => s1

/-- The webview show/create effect (App.tsx lines 188-204): outside the
overlay, resolve the active id in ephemeral-then-persistent order and either
hide everything (blank url) or show/create the surface. -/
def webviewEffect (s : AppState) : AppState :=
  if s.showSettings then s
  else if s.activeTab = "" then s
  else
    match (s.tempTabs.find? (fun p => p.id == s.activeTab)).orElse
        (fun _ => s.platforms.find? (fun p => p.id == s.activeTab)) with
    | none => s
    | some p =>
      if jsTrim p.url = "" then { s with calls := s.calls ++ [BridgeCall.hideAll] }
      else { s with calls := s.calls ++ [BridgeCall.showOrCreate p.id p.url 70] }

/-- One settings-toggle user action together with the webview effect re-run
it triggers (the effect depends on `showSettings`, so it re-runs after every
toggle commit). -/
def settingsToggleStep (s : AppState) : AppState := webviewEffect (toggleSettings s)

/-- The mutations of the platform list and the ephemeral tab list named by
the specification: add, quick-add, blank-tab open, commit, cancel, remove,
move, tab-strip close/hide, and the inbound new-tab event. -/
inductive Mutation where
  | add (name url : String) (now : Nat)
  | quickAdd (qname qurl : String) (now : Nat)
  | openBlank (now : Nat)
  | commit (qname qurl : String) (now : Nat)
  | cancel
  | remove (id : String)
  | move (index : Nat) (dir : MoveDir)
  | closeTab (id : String)
  | newTab (url : String) (now : Nat)

/-- Dispatch a mutation to its handler. -/
def applyMutation : Mutation → AppState → AppState
  | .add name url now => handleAddPlatform name url now
  | .quickAdd qn qu now => handleQuickAdd qn qu now
  | .openBlank now => openBlankTab now
  | .commit qn qu now => commitQuickAdd qn qu now
  | .cancel => cancelQuickAdd
  | .remove id => handleRemovePlatform id
  | .move i d => handleMovePlatform i d
  | .closeTab id => handleCloseTab id
  | .newTab url now => newTabRequest url now

/-- Reachability invariant of the active id: it is empty or the id of some
record known to the core (possibly a hidden one). -/
def goodActive (s : AppState) : Prop := s.activeTab = "" ∨ s.activeTab ∈ allIds s

/-- `handleRemovePlatform` together with the reconciliation effect re-run its
state commit triggers. -/
def removeThenReconcile (id : String) (s : AppState) : AppState :=
  reconcile (handleRemovePlatform id s)

/-- The selection the remove-then-reconcile composite actually lands on when
the removed tab was active: the first visible remaining platform, else the
first ephemeral tab, else the first remaining (hidden) platform, else empty. -/
def removedFallback (filtered temps : List Platform) : String :=
  match filtered.filter (fun p => !p.hidden) with
  | v :: _ => v.id
  | [] =>
    match temps with
    | t :: _ => t.id
    | [] => firstId filtered

/-- Events relevant to the persistence startup protocol of the `App`
component: the startup load resolving with its result (lines 156-162), and a
user mutation of the platform list. -/
inductive PersistEvent where
  | load (loaded : List Platform)
  | mutate (f : List Platform → List Platform)

/-- Whether a persistence event is the startup load resolving. -/
def PersistEvent.isLoad : PersistEvent → Bool
  | .load _ => true
  | .mutate _ => false

/-- State of the persistence protocol: the platform list, the flag set when
the startup load has resolved (App.tsx state `initialized`), and the ordered
log of write attempts issued to the persistence gateway. -/
structure PersistState where
  platforms : List Platform
  inited : Bool
  writes : List (List Platform)
deriving Repr

/-- The component mounts with an empty list and the flag cleared. -/
def persistInit : PersistState := { platforms := [], inited := false, writes := [] }

/-- One event of the persistence protocol.  The save effect (App.tsx lines
181-186) re-runs after every commit that changed `platforms` or the flag and
issues exactly one write when the flag is set; the load resolution itself
sets both, so its commit also issues one write of the just-loaded data. -/
def persistStep (s : PersistState) : PersistEvent → PersistState
  | .load loaded => { platforms := loaded, inited := true, writes := s.writes ++ [loaded] }
  | .mutate f =>
    if s.inited then
      { s with platforms := f s.platforms, writes := s.writes ++ [f s.platforms] }
    else { s with platforms := f s.platforms }

/-- Run of the persistence protocol from component mount. -/
def persistRun (evs : List PersistEvent) : PersistState := evs.foldl persistStep persistInit

/-- Outcome of reading one storage location and JSON-parsing it, as
distinguished by `loadPlatformsAsync`: the read or parse threw (or the
legacy key was absent), the parse succeeded but gave a non-array, or it gave
an array of records. -/
inductive StoreRead where
  | err
  | notArr
  | arr (l : List Platform)
deriving DecidableEq, Repr

/-- The usability test of `loadPlatformsAsync`:
`Array.isArray(parsed) && parsed.length > 0`. -/
def usable : StoreRead → Option (List Platform)
  | .arr (p :: l) => some (p :: l)
  | _ => none

/-- Observable outcome of `loadPlatformsAsync`: the resolved list, whether
the legacy location was consulted, and which locations were written. -/
structure LoadOutcome where
  result : List Platform
  legacyRead : Bool
  wrotePrimary : Bool
  wroteLegacy : Bool
deriving DecidableEq, Repr

/-- `loadPlatformsAsync` (App.tsx lines 51-70): read the primary file store;
on unusable data fall back to the legacy browser-local store, migrating a
usable legacy read back to the primary store; when both are unusable resolve
to the empty list.  Every failure path is caught, so the load always
resolves, and no path writes the legacy store. -/
def loadPlatformsAsync (primary legacy : StoreRead) : LoadOutcome :=
  match usable primary with
  | some l => { result := l, legacyRead := false, wrotePrimary := false, wroteLegacy := false }
  | none =>
    match usable legacy with
    | some l => { result := l, legacyRead := true, wrotePrimary := true, wroteLegacy := false }
    | none => { result := [], legacyRead := true, wrotePrimary := false, wroteLegacy := false }

/-! ## Helper lemmas about JS string trimming -/

theorem dropWhile_head?_not {α : Type} (p : α → Bool) (l : List α) {a : α}
    (h : (l.dropWhile p).head? = some a) : p a = false := by
  have hd := List.head?_dropWhile_not p l
  rw [h] at hd
  exact hd

theorem dropWhile_eq_self {α : Type} (p : α → Bool) (a : α) (l : List α)
    (ha : p a = false) : (a :: l).dropWhile p = a :: l :=
  List.dropWhile_cons_of_neg (by simp [ha])

theorem dropWhile_self {α : Type} (p : α → Bool) (l : List α) :
    (l.dropWhile p).dropWhile p = l.dropWhile p := by
  cases h : l.dropWhile p with
  | nil => rfl
  | cons a t =>
    have ha : p a = false := dropWhile_head?_not p l (by rw [h]; rfl)
    exact dropWhile_eq_self p a t ha

theorem trimRightChars_decomp (l : List Char) :
    l = trimRightChars l ++ (l.reverse.takeWhile isJsWhitespace).reverse := by
  have h : l.reverse.takeWhile isJsWhitespace ++ l.reverse.dropWhile isJsWhitespace
      = l.reverse := List.takeWhile_append_dropWhile _ _
  conv_lhs => rw [← List.reverse_reverse l, ← h]
  rw [List.reverse_append]
  rfl

theorem trimRightChars_head? (l : List Char) (h : trimRightChars l ≠ []) :
    l.head? = (trimRightChars l).head? := by
  conv_lhs => rw [trimRightChars_decomp l]
  cases hr : trimRightChars l with
  | nil => exact absurd hr h
  | cons a t => simp

theorem trimRightChars_self (l : List Char) :
    trimRightChars (trimRightChars l) = trimRightChars l := by
  unfold trimRightChars
  rw [List.reverse_reverse, dropWhile_self]

theorem jsTrimChars_self (l : List Char) : jsTrimChars (jsTrimChars l) = jsTrimChars l := by
  show trimRightChars (trimLeftChars (trimRightChars (trimLeftChars l)))
      = trimRightChars (trimLeftChars l)
  have h1 : trimLeftChars (trimRightChars (trimLeftChars l))
      = trimRightChars (trimLeftChars l) := by
    cases hr : trimRightChars (trimLeftChars l) with
    | nil => rfl
    | cons a t =>
      have hne : trimRightChars (trimLeftChars l) ≠ [] := by rw [hr]; simp
      have hl : (trimLeftChars l).head? = some a := by
        rw [trimRightChars_head? _ hne, hr]; rfl
      have ha : isJsWhitespace a = false := dropWhile_head?_not _ _ hl
      exact dropWhile_eq_self _ a t ha
  rw [h1, trimRightChars_self]

theorem jsTrimChars_last (l : List Char) {a : Char}
    (h : (jsTrimChars l).reverse.head? = some a) : isJsWhitespace a = false := by
  have h' : ((trimLeftChars l).reverse.dropWhile isJsWhitespace).head? = some a := by
    have : (jsTrimChars l).reverse
        = (trimLeftChars l).reverse.dropWhile isJsWhitespace := by
      show (trimRightChars (trimLeftChars l)).reverse = _
      unfold trimRightChars
      rw [List.reverse_reverse]
    rw [← this]
    exact h
  exact dropWhile_head?_not _ _ h'

theorem trimRightChars_append_of_last (u v : List Char) (hne : v ≠ [])
    (hlast : ∀ a, v.reverse.head? = some a → isJsWhitespace a = false) :
    trimRightChars (u ++ v) = u ++ v := by
  unfold trimRightChars
  rw [List.reverse_append]
  cases hv : v.reverse with
  | nil => exact absurd (by simpa using hv) hne
  | cons a t =>
    have ha := hlast a (by rw [hv]; rfl)
    rw [List.cons_append, dropWhile_eq_self _ a _ ha, ← List.cons_append, ← hv,
      ← List.reverse_append, List.reverse_reverse]

theorem jsTrimChars_https (l : List Char) (h : jsTrimChars l ≠ []) :
    jsTrimChars (httpsChars ++ jsTrimChars l) = httpsChars ++ jsTrimChars l := by
  have h1 : trimLeftChars (httpsChars ++ jsTrimChars l) = httpsChars ++ jsTrimChars l :=
    dropWhile_eq_self _ _ _ (by decide)
  show trimRightChars (trimLeftChars (httpsChars ++ jsTrimChars l)) = _
  rw [h1]
  exact trimRightChars_append_of_last _ _ h (fun a ha => jsTrimChars_last l ha)

theorem hasSchemeChars_https (t : List Char) : hasSchemeChars (httpsChars ++ t) = true := rfl

theorem normalizeUrlChars_eq_nil (l : List Char) :
    normalizeUrlChars l = [] ↔ jsTrimChars l = [] := by
  unfold normalizeUrlChars
  by_cases h0 : jsTrimChars l = []
  · simp [h0]
  · by_cases h1 : hasSchemeChars (jsTrimChars l)
    · simp [h0, h1]
    · simp [h0, h1, httpsChars]

theorem normalizeUrlChars_self (l : List Char) :
    normalizeUrlChars (normalizeUrlChars l) = normalizeUrlChars l := by
  by_cases h0 : jsTrimChars l = []
  · have e : normalizeUrlChars l = [] := by simp [normalizeUrlChars, h0]
    rw [e]
    decide
  · by_cases h1 : hasSchemeChars (jsTrimChars l)
    · have e : normalizeUrlChars l = jsTrimChars l := by
        unfold normalizeUrlChars
        rw [if_neg h0, if_pos h1]
      rw [e]
      unfold normalizeUrlChars
      rw [jsTrimChars_self, if_neg h0, if_pos h1]
    · have e : normalizeUrlChars l = httpsChars ++ jsTrimChars l := by
        unfold normalizeUrlChars
        rw [if_neg h0, if_neg h1]
      rw [e]
      unfold normalizeUrlChars
      rw [jsTrimChars_https l h0]
      have hne : httpsChars ++ jsTrimChars l ≠ [] := by simp [httpsChars]
      rw [if_neg hne, if_pos (hasSchemeChars_https _)]

theorem string_mk_inj {a b : List Char} : String.mk a = String.mk b ↔ a = b :=
  ⟨fun h => by injection h, congrArg _⟩

/-- C10: `normalizeUrl` is idempotent; its result is empty exactly when the
input trims to empty; an input whose trimmed form already carries a
`scheme://` prefix is returned trimmed but otherwise unchanged; every other
non-empty trimmed input gets `https://` prepended. -/
theorem claim_c10_theorem (s : String) :
    normalizeUrl (normalizeUrl s) = normalizeUrl s
    ∧ (normalizeUrl s = "" ↔ jsTrim s = "")
    ∧ (hasScheme (jsTrim s) = true → normalizeUrl s = jsTrim s)
    ∧ (jsTrim s ≠ "" → hasScheme (jsTrim s) = false → normalizeUrl s = "https://" ++ jsTrim s) := by
  refine ⟨?_, ?_, ?_, ?_⟩
  · exact congrArg String.mk (normalizeUrlChars_self s.data)
  · show String.mk (normalizeUrlChars s.data) = String.mk [] ↔ String.mk (jsTrimChars s.data) = String.mk []
    rw [string_mk_inj, string_mk_inj]
    exact normalizeUrlChars_eq_nil s.data
  · intro h
    show String.mk (normalizeUrlChars s.data) = String.mk (jsTrimChars s.data)
    apply congrArg String.mk
    have h0 : jsTrimChars s.data ≠ [] := by
      intro hnil
      rw [show hasScheme (jsTrim s) = hasSchemeChars (jsTrimChars s.data) from rfl, hnil] at h
      exact Bool.false_ne_true h
    have h' : hasSchemeChars (jsTrimChars s.data) = true := h
    unfold normalizeUrlChars
    rw [if_neg h0, if_pos h']
  · intro hne h
    have h0 : jsTrimChars s.data ≠ [] := fun hnil => hne (congrArg String.mk hnil)
    show String.mk (normalizeUrlChars s.data) = String.mk (httpsChars ++ jsTrimChars s.data)
    apply congrArg String.mk
    unfold normalizeUrlChars
    rw [if_neg h0, if_neg (by rw [show hasScheme (jsTrim s) = hasSchemeChars (jsTrimChars s.data) from rfl] at h; simp [h])]

/-- Witness for C10 at concrete inputs on both the scheme-preserving and the
prefixing branch. -/
theorem claim_c10_witness :
    normalizeUrl (normalizeUrl " example.com ") = normalizeUrl " example.com "
    ∧ normalizeUrl " example.com " = "https://" ++ jsTrim " example.com "
    ∧ normalizeUrl "https://a.b" = jsTrim "https://a.b"
    ∧ (normalizeUrl "  " = "" ↔ jsTrim "  " = "") :=
  ⟨( claim_c10_theorem " example.com ").1,
   ( claim_c10_theorem " example.com ").2.2.2 (by decide) (by decide),
   ( claim_c10_theorem "https://a.b").2.2.1 (by decide),
   ( claim_c10_theorem "  ").2.1⟩

/-! ## Helper lemmas about the orchestrator state -/

theorem reconcile_platforms (s : AppState) : (reconcile s).platforms = s.platforms := by
  unfold reconcile
  split
  · rfl
  · split
    · rfl
    · rfl

theorem reconcile_tempTabs (s : AppState) : (reconcile s).tempTabs = s.tempTabs := by
  unfold reconcile
  split
  · rfl
  · split
    · rfl
    · rfl

theorem visibleSeq_reconcile (s : AppState) : visibleSeq (reconcile s) = visibleSeq s := by
  unfold visibleSeq
  rw [reconcile_platforms, reconcile_tempTabs]

theorem visibleIds_reconcile (s : AppState) : visibleIds (reconcile s) = visibleIds s := by
  unfold visibleIds
  rw [visibleSeq_reconcile]

theorem hiddenIds_reconcile (s : AppState) : hiddenIds (reconcile s) = hiddenIds s := by
  unfold hiddenIds
  rw [reconcile_platforms]

theorem firstId_mem (l : List Platform) : firstId l = "" ∨ firstId l ∈ l.map (·.id) := by
  cases l with
  | nil => exact Or.inl rfl
  | cons p t => exact Or.inr (by simp [firstId])

theorem goodActive_of_active_eq {s : AppState} (p : Platform)
    (hp : p ∈ s.platforms ++ s.tempTabs) (h : s.activeTab = p.id) : goodActive s :=
  Or.inr (h ▸ List.mem_map_of_mem _ hp)

theorem mem_ids_append_temp (l t : List Platform) (p : Platform) :
    p.id ∈ (l ++ (t ++ [p])).map (·.id) := by simp

theorem mem_ids_append_platform (l t : List Platform) (p : Platform) :
    p.id ∈ ((l ++ [p]) ++ t).map (·.id) := by simp

theorem goodActive_platforms_perm {s : AppState} {l' : List Platform}
    (hperm : List.Perm l' s.platforms) (hg : goodActive s) :
    goodActive { s with platforms := l' } := by
  rcases hg with h | h
  · exact Or.inl h
  · right
    have hidperm : List.Perm ((l' ++ s.tempTabs).map (·.id))
        ((s.platforms ++ s.tempTabs).map (·.id)) :=
      (hperm.append_right s.tempTabs).map _
    exact hidperm.mem_iff.2 h

theorem swapAdjAt_perm {α : Type} (l : List α) (n : Nat) : List.Perm (swapAdjAt l n) l := by
  induction l generalizing n with
  | nil => exact List.Perm.refl _
  | cons x t ih =>
    cases t with
    | nil => exact List.Perm.refl _
    | cons y r =>
      cases n with
      | zero => exact List.Perm.swap x y r
      | succ m => exact List.Perm.cons x (ih m)

theorem ids_of_map_preserving (f : Platform → Platform) (hf : ∀ p, (f p).id = p.id)
    (l : List Platform) : (l.map f).map (·.id) = l.map (·.id) := by
  rw [List.map_map]
  exact List.map_congr_left (fun p _ => hf p)

/-! ## Preservation of the active-id reachability invariant -/

theorem goodActive_handleAddPlatform (name url : String) (now : Nat) (s : AppState)
    (hg : goodActive s) : goodActive (handleAddPlatform name url now s) := by
  unfold handleAddPlatform
  split
  · exact hg
  · exact Or.inr (mem_ids_append_platform s.platforms s.tempTabs _)

theorem goodActive_handleQuickAdd (qname qurl : String) (now : Nat) (s : AppState)
    (hg : goodActive s) : goodActive (handleQuickAdd qname qurl now s) := by
  unfold handleQuickAdd
  split
  · exact hg
  · exact Or.inr (mem_ids_append_temp s.platforms s.tempTabs _)

theorem goodActive_openBlankTab (now : Nat) (s : AppState) (hg : goodActive s) :
    goodActive (openBlankTab now s) := by
  unfold openBlankTab
  split
  · exact hg
  · split
    · exact hg
    · exact Or.inr (mem_ids_append_temp s.platforms s.tempTabs _)

theorem goodActive_newTabRequest (url : String) (now : Nat) (s : AppState)
    (hg : goodActive s) : goodActive (newTabRequest url now s) := by
  unfold newTabRequest
  split
  · exact hg
  · exact Or.inr (mem_ids_append_temp s.platforms s.tempTabs _)

theorem goodActive_commitQuickAdd (qname qurl : String) (now : Nat) (s : AppState)
    (hg : goodActive s) : goodActive (commitQuickAdd qname qurl now s) := by
  unfold commitQuickAdd
  split
  · rename_i ct heq
    split
    · split
      · exact hg
      · rcases hg with h | h
        · exact Or.inl h
        · right
          unfold allIds at h ⊢
          rw [List.map_append] at h ⊢
          rw [ids_of_map_preserving _ (fun p => by split <;> rfl) s.tempTabs]
          exact h
    · exact goodActive_handleQuickAdd qname qurl now s hg
  · exact goodActive_handleQuickAdd qname qurl now s hg

theorem goodActive_cancelQuickAdd (s : AppState) (hg : goodActive s) :
    goodActive (cancelQuickAdd s) := by
  unfold cancelQuickAdd
  split
  · rename_i ct heq
    split
    · rcases firstId_mem
        (s.platforms ++ s.tempTabs.filter (fun p => !(p.id == s.activeTab))) with h | h
      · exact Or.inl h
      · exact Or.inr h
    · exact hg
  · exact hg

theorem goodActive_handleRemovePlatform (id : String) (s : AppState) (hg : goodActive s) :
    goodActive (handleRemovePlatform id s) := by
  unfold handleRemovePlatform
  by_cases ha : s.activeTab = id
  · simp only [if_pos ha]
    rcases firstId_mem (s.platforms.filter (fun p => !(p.id == id))) with h | h
    · exact Or.inl h
    · right
      unfold allIds
      rw [List.map_append]
      exact List.mem_append.2 (Or.inl h)
  · simp only [if_neg ha]
    rcases hg with h | h
    · exact Or.inl h
    · right
      rcases List.mem_map.1 h with ⟨p, hp, hpid⟩
      rcases List.mem_append.1 hp with hpp | hpt
      · refine List.mem_map.2 ⟨p, List.mem_append.2 (Or.inl (List.mem_filter.2 ⟨hpp, ?_⟩)), hpid⟩
        rw [Bool.not_eq_eq_eq_not, Bool.not_true, beq_eq_false_iff_ne]
        intro hcon
        exact ha (by rw [← hpid]; exact hcon)
      · exact List.mem_map.2 ⟨p, List.mem_append.2 (Or.inr hpt), hpid⟩

theorem goodActive_handleCloseTab (id : String) (s : AppState) (hg : goodActive s) :
    goodActive (handleCloseTab id s) := by
  unfold handleCloseTab
  split
  · -- ephemeral branch
    by_cases ha : s.activeTab = id
    · simp only [if_pos ha]
      rcases firstId_mem (s.platforms ++ s.tempTabs.filter (fun p => !(p.id == id))) with h | h
      · exact Or.inl h
      · exact Or.inr h
    · simp only [if_neg ha]
      rcases hg with h | h
      · exact Or.inl h
      · right
        rcases List.mem_map.1 h with ⟨p, hp, hpid⟩
        rcases List.mem_append.1 hp with hpp | hpt
        · exact List.mem_map.2 ⟨p, List.mem_append.2 (Or.inl hpp), hpid⟩
        · refine List.mem_map.2 ⟨p, List.mem_append.2 (Or.inr (List.mem_filter.2 ⟨hpt, ?_⟩)), hpid⟩
          rw [Bool.not_eq_eq_eq_not, Bool.not_true, beq_eq_false_iff_ne]
          intro hcon
          exact ha (by rw [← hpid]; exact hcon)
  · -- persistent branch
    by_cases ha : s.activeTab = id
    · simp only [if_pos ha]
      rcases firstId_mem
          ((s.platforms.map (fun p => if p.id == id then { p with hidden := true } else p)).filter
              (fun p => !p.hidden) ++ s.tempTabs) with h | h
      · exact Or.inl h
      · right
        unfold allIds
        rcases List.mem_map.1 h with ⟨p, hp, hpid⟩
        rcases List.mem_append.1 hp with hpp | hpt
        · exact List.mem_map.2 ⟨p, List.mem_append.2 (Or.inl (List.mem_of_mem_filter hpp)), hpid⟩
        · exact List.mem_map.2 ⟨p, List.mem_append.2 (Or.inr hpt), hpid⟩
    · simp only [if_neg ha]
      rcases hg with h | h
      · exact Or.inl h
      · right
        unfold allIds at h ⊢
        rw [List.map_append] at h ⊢
        rw [ids_of_map_preserving _ (fun p => by split <;> rfl)]
        exact h

theorem goodActive_handleMovePlatform (index : Nat) (dir : MoveDir) (s : AppState)
    (hg : goodActive s) : goodActive (handleMovePlatform index dir s) := by
  unfold handleMovePlatform
  cases dir with
  | up =>
    by_cases h0 : 0 < index
    · simp only [if_pos h0]
      exact goodActive_platforms_perm (swapAdjAt_perm _ _) hg
    · simp only [if_neg h0]
      exact hg
  | down =>
    by_cases h0 : index + 1 < s.platforms.length
    · simp only [if_pos h0]
      exact goodActive_platforms_perm (swapAdjAt_perm _ _) hg
    · simp only [if_neg h0]
      exact hg

theorem goodActive_applyMutation (m : Mutation) (s : AppState) (hg : goodActive s) :
    goodActive (applyMutation m s) := by
  cases m with
  | add name url now => exact goodActive_handleAddPlatform name url now s hg
  | quickAdd qn qu now => exact goodActive_handleQuickAdd qn qu now s hg
  | openBlank now => exact goodActive_openBlankTab now s hg
  | commit qn qu now => exact goodActive_commitQuickAdd qn qu now s hg
  | cancel => exact goodActive_cancelQuickAdd s hg
  | remove id => exact goodActive_handleRemovePlatform id s hg
  | move i d => exact goodActive_handleMovePlatform i d s hg
  | closeTab id => exact goodActive_handleCloseTab id s hg
  | newTab url now => exact goodActive_newTabRequest url now s hg

/-! ## What the reconciliation effect guarantees -/

theorem reconcile_of_nil (s : AppState)
    (h : s.platforms.filter (fun p => !p.hidden) ++ s.tempTabs = []) : reconcile s = s := by
  unfold reconcile
  rw [h]

theorem reconcile_of_cons_true (s : AppState) (q : Platform) (rest : List Platform)
    (h : s.platforms.filter (fun p => !p.hidden) ++ s.tempTabs = q :: rest)
    (hc : s.activeTab = "" ∨ activeResolvesHidden s = true) :
    reconcile s = { s with activeTab := q.id } := by
  unfold reconcile
  rw [h]
  show (if s.activeTab = "" ∨ activeResolvesHidden s = true then { s with activeTab := q.id }
    else s) = { s with activeTab := q.id }
  rw [if_pos hc]

theorem reconcile_of_cons_false (s : AppState) (q : Platform) (rest : List Platform)
    (h : s.platforms.filter (fun p => !p.hidden) ++ s.tempTabs = q :: rest)
    (hc : ¬(s.activeTab = "" ∨ activeResolvesHidden s = true)) : reconcile s = s := by
  unfold reconcile
  rw [h]
  show (if s.activeTab = "" ∨ activeResolvesHidden s = true then { s with activeTab := q.id }
    else s) = s
  rw [if_neg hc]

theorem reconcile_invariant (s : AppState) (hg : goodActive s) :
    (visibleSeq s ≠ [] → (reconcile s).activeTab ∈ visibleIds s)
    ∧ (visibleSeq s = [] →
        (reconcile s).activeTab = "" ∨ (reconcile s).activeTab ∈ hiddenIds s) := by
  cases hv : s.platforms.filter (fun p => !p.hidden) ++ s.tempTabs with
  | nil =>
    rw [reconcile_of_nil s hv]
    have hvs : visibleSeq s = [] := hv
    constructor
    · intro hne
      exact absurd hvs hne
    · intro _
      rcases hg with h | h
      · exact Or.inl h
      · right
        rcases List.mem_map.1 h with ⟨p, hp, hpid⟩
        rcases List.append_eq_nil.1 hv with ⟨hfil, htmp⟩
        rcases List.mem_append.1 hp with hpp | hpt
        · have hph : p.hidden = true := by
            by_contra hcon
            have hmem : p ∈ s.platforms.filter (fun q => !q.hidden) :=
              List.mem_filter.2 ⟨hpp, by simp [Bool.not_eq_true] at hcon; simp [hcon]⟩
            rw [hfil] at hmem
            exact absurd hmem (List.not_mem_nil p)
          exact hpid ▸ List.mem_map_of_mem _ (List.mem_filter.2 ⟨hpp, hph⟩)
        · rw [htmp] at hpt
          exact absurd hpt (List.not_mem_nil p)
  | cons q rest =>
    have hvs : visibleSeq s = q :: rest := hv
    by_cases hc : s.activeTab = "" ∨ activeResolvesHidden s = true
    · rw [reconcile_of_cons_true s q rest hv hc]
      constructor
      · intro _
        show q.id ∈ visibleIds s
        unfold visibleIds
        exact List.mem_map_of_mem _ (by rw [hvs]; exact List.mem_cons_self q rest)
      · intro hvnil
        rw [hvs] at hvnil
        exact absurd hvnil (List.cons_ne_nil q rest)
    · rw [reconcile_of_cons_false s q rest hv hc]
      push_neg at hc
      obtain ⟨hne', hnh⟩ := hc
      constructor
      · intro _
        rcases hg with h | h
        · exact absurd h hne'
        · rcases List.mem_map.1 h with ⟨p, hp, hpid⟩
          rcases List.mem_append.1 hp with hpp | hpt
          · have hex : ∃ x ∈ s.platforms, (fun x => x.id == s.activeTab) x = true :=
              ⟨p, hpp, by simp [hpid]⟩
            cases hfind : s.platforms.find? (fun x => x.id == s.activeTab) with
            | none =>
              have hsome := List.find?_isSome.2 hex
              rw [hfind] at hsome
              cases hsome
            | some q' =>
              have hqmem := List.mem_of_find?_eq_some hfind
              have hqid : q'.id = s.activeTab := by
                have := List.find?_some hfind
                simpa using this
              have hqh : q'.hidden = false := by
                have harh : activeResolvesHidden s = q'.hidden := by
                  unfold activeResolvesHidden
                  rw [hfind]
                rw [harh] at hnh
                simpa using hnh
              show s.activeTab ∈ visibleIds s
              unfold visibleIds visibleSeq
              rw [← hqid]
              exact List.mem_map_of_mem _
                (List.mem_append.2 (Or.inl (List.mem_filter.2 ⟨hqmem, by simp [hqh]⟩)))
          · show s.activeTab ∈ visibleIds s
            unfold visibleIds visibleSeq
            rw [← hpid]
            exact List.mem_map_of_mem _ (List.mem_append.2 (Or.inr hpt))
      · intro hvnil
        rw [hvs] at hvnil
        exact absurd hvnil (List.cons_ne_nil q rest)

/-- C1 (as stated) is false: starting from a state that itself satisfies the
claimed invariant (one hidden platform, one visible active platform, no
ephemeral tabs), removing the active platform and letting the reconciliation
effect run leaves the visible sequence empty while the active id is the
non-empty id of the remaining hidden platform. -/
theorem claim_c1_counterexample :
    let s0 : AppState :=
      { platforms := [{ id := "a1", name := "A", url := "https://a1.example", hidden := true },
                      { id := "b1", name := "B", url := "https://b1.example" }],
        tempTabs := [], activeTab := "b1", showSettings := false, showQuickAdd := false,
        calls := [] }
    let s1 := reconcile (applyMutation (Mutation.remove "b1") s0)
    (visibleSeq s0 ≠ [] ∧ s0.activeTab ∈ visibleIds s0)
      ∧ visibleSeq s1 = [] ∧ s1.activeTab ≠ "" := by
  decide

/-- C1 amended: after any of the listed mutations followed by the
reconciliation effect, from any state whose active id is empty or resolves
to a known record, a non-empty combined visible sequence contains the active
id; when the sequence is empty the active id is either empty or the id of a
remaining hidden persistent tab (the code does not clear it in that case). -/
theorem claim_c1_theorem (m : Mutation) (s : AppState) (hg : goodActive s) :
    (visibleSeq (reconcile (applyMutation m s)) ≠ [] →
      (reconcile (applyMutation m s)).activeTab ∈ visibleIds (reconcile (applyMutation m s)))
    ∧ (visibleSeq (reconcile (applyMutation m s)) = [] →
      (reconcile (applyMutation m s)).activeTab = ""
        ∨ (reconcile (applyMutation m s)).activeTab ∈ hiddenIds (reconcile (applyMutation m s))) := by
  have hg' := goodActive_applyMutation m s hg
  have hinv := reconcile_invariant (applyMutation m s) hg'
  rw [visibleSeq_reconcile, visibleIds_reconcile, hiddenIds_reconcile]
  exact hinv

/-- Witness for C1 at a concrete state and mutation: closing the active
ephemeral tab falls back to the remaining visible platform. -/
theorem claim_c1_witness :
    let s0 : AppState :=
      { platforms := [{ id := "p1", name := "P", url := "https://p1.example" }],
        tempTabs := [{ id := "tmp-1", name := "T", url := "https://t.example" }],
        activeTab := "tmp-1", showSettings := false, showQuickAdd := false, calls := [] }
    (reconcile (applyMutation (Mutation.closeTab "tmp-1") s0)).activeTab
      ∈ visibleIds (reconcile (applyMutation (Mutation.closeTab "tmp-1") s0)) := by
  exact (claim_c1_theorem (Mutation.closeTab "tmp-1") _ (Or.inr (by decide))).1 (by decide)

/-! ## Removal semantics (C2) -/

theorem removedFallback_nil_nil (F temps : List Platform)
    (h1 : F.filter (fun p => !p.hidden) = []) (h2 : temps = []) :
    removedFallback F temps = firstId F := by
  unfold removedFallback
  rw [h1, h2]

theorem removedFallback_nil_cons (F temps : List Platform) (t : Platform) (ts : List Platform)
    (h1 : F.filter (fun p => !p.hidden) = []) (h2 : temps = t :: ts) :
    removedFallback F temps = t.id := by
  unfold removedFallback
  rw [h1, h2]

theorem removedFallback_cons (F temps : List Platform) (v : Platform) (vs : List Platform)
    (h1 : F.filter (fun p => !p.hidden) = v :: vs) : removedFallback F temps = v.id := by
  unfold removedFallback
  rw [h1]

/-- C2 (as stated) is false in one corner: when the removed active tab leaves
only hidden platforms behind and there is no ephemeral tab, the claim demands
the empty active id, but the code selects the first remaining (hidden)
platform and the reconciliation effect does not clear it. -/
theorem claim_c2_counterexample :
    let s0 : AppState :=
      { platforms := [{ id := "h2", name := "H", url := "https://h2.example", hidden := true },
                      { id := "x2", name := "X", url := "https://x2.example" }],
        tempTabs := [], activeTab := "x2", showSettings := false, showQuickAdd := false,
        calls := [] }
    let s1 := removeThenReconcile "x2" s0
    (s1.platforms.filter (fun p => !p.hidden) = [] ∧ s1.tempTabs = [])
      ∧ s1.activeTab = "h2" ∧ s1.activeTab ≠ "" := by
  decide

/-- C2 amended: removal (followed by the reconciliation effect) keeps the
ephemeral list, deletes exactly the records carrying the removed id, and when
the removed tab was active the new active id is the first visible remaining
platform, else the first ephemeral tab, else — when hidden platforms remain —
the first remaining (hidden) platform's id, else the empty string, as
captured by `removedFallback`. -/
theorem claim_c2_theorem (s : AppState) (id : String) :
    (removeThenReconcile id s).tempTabs = s.tempTabs
    ∧ (∀ p : Platform, p ∈ (removeThenReconcile id s).platforms ↔ p ∈ s.platforms ∧ ¬ p.id = id)
    ∧ (s.activeTab = id →
        (removeThenReconcile id s).activeTab
          = removedFallback (s.platforms.filter (fun p => !(p.id == id))) s.tempTabs) := by
  have hz_platforms : (handleRemovePlatform id s).platforms
      = s.platforms.filter (fun p => !(p.id == id)) := rfl
  have hz_temp : (handleRemovePlatform id s).tempTabs = s.tempTabs := rfl
  refine ⟨?_, ?_, ?_⟩
  · show (reconcile (handleRemovePlatform id s)).tempTabs = s.tempTabs
    rw [reconcile_tempTabs, hz_temp]
  · intro p
    show p ∈ (reconcile (handleRemovePlatform id s)).platforms ↔ _
    rw [reconcile_platforms, hz_platforms, List.mem_filter]
    constructor
    · rintro ⟨h1, h2⟩
      rw [Bool.not_eq_eq_eq_not, Bool.not_true, beq_eq_false_iff_ne] at h2
      exact ⟨h1, h2⟩
    · rintro ⟨h1, h2⟩
      refine ⟨h1, ?_⟩
      rw [Bool.not_eq_eq_eq_not, Bool.not_true, beq_eq_false_iff_ne]
      exact h2
  · intro hact
    have hz_active : (handleRemovePlatform id s).activeTab
        = firstId (s.platforms.filter (fun p => !(p.id == id))) := by
      show (if s.activeTab = id then firstId (s.platforms.filter (fun p => !(p.id == id)))
        else s.activeTab) = _
      rw [if_pos hact]
    show (reconcile (handleRemovePlatform id s)).activeTab = _
    cases hv : (s.platforms.filter (fun p => !(p.id == id))).filter (fun p => !p.hidden) with
    | nil =>
      cases ht : s.tempTabs with
      | nil =>
        have hnil : (handleRemovePlatform id s).platforms.filter (fun p => !p.hidden)
            ++ (handleRemovePlatform id s).tempTabs = [] := by
          rw [hz_platforms, hz_temp, hv, ht]
          rfl
        rw [reconcile_of_nil _ hnil, hz_active, removedFallback_nil_nil _ _ hv rfl]
      | cons t ts =>
        have hcons : (handleRemovePlatform id s).platforms.filter (fun p => !p.hidden)
            ++ (handleRemovePlatform id s).tempTabs = t :: ts := by
          rw [hz_platforms, hz_temp, hv, ht]
          rfl
        have hcond : (handleRemovePlatform id s).activeTab = ""
            ∨ activeResolvesHidden (handleRemovePlatform id s) = true := by
          cases hP : s.platforms.filter (fun p => !(p.id == id)) with
          | nil =>
            left
            rw [hz_active, hP]
            rfl
          | cons f fs =>
            right
            have hfh : f.hidden = true := by
              have hall := List.filter_eq_nil_iff.1 (by rw [hP] at hv; exact hv)
              have := hall f (List.mem_cons_self f fs)
              simpa using this
            unfold activeResolvesHidden
            rw [hz_platforms, hz_active, hP]
            rw [List.find?_cons_of_pos _ (by simp [firstId])]
            exact hfh
        rw [reconcile_of_cons_true _ t ts hcons hcond,
          removedFallback_nil_cons _ _ t ts hv rfl]
    | cons v vs =>
      have hcons : (handleRemovePlatform id s).platforms.filter (fun p => !p.hidden)
          ++ (handleRemovePlatform id s).tempTabs = v :: (vs ++ s.tempTabs) := by
        rw [hz_platforms, hz_temp, hv]
        rfl
      cases hP : s.platforms.filter (fun p => !(p.id == id)) with
      | nil =>
        rw [hP] at hv
        exact absurd hv (by simp)
      | cons f fs =>
        rw [hP] at hv
        have hactive_f : (handleRemovePlatform id s).activeTab = f.id := by
          rw [hz_active, hP]
          rfl
        have hars : activeResolvesHidden (handleRemovePlatform id s) = f.hidden := by
          unfold activeResolvesHidden
          rw [hz_platforms, hz_active, hP]
          rw [List.find?_cons_of_pos _ (by simp [firstId])]
        by_cases hfh : f.hidden = true
        · have hcond : (handleRemovePlatform id s).activeTab = ""
              ∨ activeResolvesHidden (handleRemovePlatform id s) = true :=
            Or.inr (by rw [hars]; exact hfh)
          rw [reconcile_of_cons_true _ _ _ hcons hcond,
            removedFallback_cons _ s.tempTabs v vs hv]
        · have hfh' : f.hidden = false := by simpa using hfh
          have hveq : v = f := by
            rw [List.filter_cons_of_pos (by simp [hfh'])] at hv
            exact (List.cons.injEq .. ▸ hv).1.symm
          by_cases hid0 : (handleRemovePlatform id s).activeTab = ""
          · rw [reconcile_of_cons_true _ _ _ hcons (Or.inl hid0),
              removedFallback_cons _ s.tempTabs v vs hv]
          · have hcond : ¬((handleRemovePlatform id s).activeTab = ""
                ∨ activeResolvesHidden (handleRemovePlatform id s) = true) := by
              rintro (h | h)
              · exact hid0 h
              · rw [hars, hfh'] at h
                cases h
            rw [reconcile_of_cons_false _ _ _ hcons hcond,
              removedFallback_cons _ s.tempTabs v vs hv, hactive_f, hveq]

/-- Witness for C2: removing the active first of two visible platforms makes
the second one active. -/
theorem claim_c2_witness :
    let s0 : AppState :=
      { platforms := [{ id := "k1", name := "K", url := "https://k1.example" },
                      { id := "k2", name := "L", url := "https://k2.example" }],
        tempTabs := [], activeTab := "k1", showSettings := false, showQuickAdd := false,
        calls := [] }
    (removeThenReconcile "k1" s0).activeTab
      = removedFallback (s0.platforms.filter (fun p => !(p.id == "k1"))) s0.tempTabs
    ∧ (removeThenReconcile "k1" s0).tempTabs = s0.tempTabs := by
  intro s0
  exact ⟨(claim_c2_theorem s0 "k1").2.2 rfl, (claim_c2_theorem s0 "k1").1⟩

/-! ## The settings-overlay protocol (C4) -/

/-- C4 (as stated) is false on two counts.  First, closing the overlay while
a visible persistent tab with a non-blank url is active issues `showOrCreate`
for it twice — once directly from the toggle handler and once from the
webview effect re-run triggered by the `showSettings` change — not exactly
once.  Second, when no active tab with a non-blank url exists (here: the
active visible persistent platform's url is blank), the surfaces do not
simply stay hidden: the toggle handler performs no url check and still
issues one `showOrCreate` carrying the blank url before the effect issues
`hideAll`. -/
theorem claim_c4_counterexample :
    let s0 : AppState :=
      { platforms := [{ id := "a4", name := "A", url := "https://a4.example" }],
        tempTabs := [], activeTab := "a4", showSettings := true, showQuickAdd := false,
        calls := [] }
    let s1 : AppState :=
      { platforms := [{ id := "b4", name := "B", url := "" }],
        tempTabs := [], activeTab := "b4", showSettings := true, showQuickAdd := false,
        calls := [] }
    (((settingsToggleStep s0).calls.filter
        (fun c =>
          match c with
          | BridgeCall.showOrCreate pid _ _ => pid == "a4"
          | _ => false)).length ≠ 1
      ∧ (settingsToggleStep s0).calls
          = [BridgeCall.showOrCreate "a4" "https://a4.example" 78,
             BridgeCall.showOrCreate "a4" "https://a4.example" 70])
    ∧ ((settingsToggleStep s1).calls
          = [BridgeCall.showOrCreate "b4" "" 78, BridgeCall.hideAll]
      ∧ BridgeCall.showOrCreate "b4" "" 78 ∈ (settingsToggleStep s1).calls) := by
  decide

/-- C4 amended: opening the overlay appends exactly one `hideAll` (the effect
re-run is inert while the overlay is open).  Closing it while the same tab is
still active with a non-blank url appends `showOrCreate` for that tab exactly
once when the tab is ephemeral (effect re-run, offset 70), but exactly twice
when it is a visible persistent platform (toggle handler at offset 78, then
the effect re-run at offset 70).  When no active tab with a non-blank url
exists on close, no `showOrCreate` is issued and the surfaces stay hidden —
whether the active id matches nothing at all, is empty, or names a
blank-url ephemeral tab (which gets only `hideAll`) — except in one case:
an active visible persistent platform with a blank url still receives one
`showOrCreate` carrying the blank url from the toggle handler (which checks
no url) before the effect appends `hideAll`. -/
theorem claim_c4_theorem :
    (∀ s : AppState, s.showSettings = false →
      (settingsToggleStep s).calls = s.calls ++ [BridgeCall.hideAll])
    ∧ (∀ (s : AppState) (q : Platform), s.showSettings = true → ¬ s.activeTab = "" →
        s.tempTabs.find? (fun r => r.id == s.activeTab) = some q →
        s.platforms.find? (fun r => r.id == s.activeTab && !r.hidden) = none →
        ¬ jsTrim q.url = "" →
        (settingsToggleStep s).calls = s.calls ++ [BridgeCall.showOrCreate q.id q.url 70])
    ∧ (∀ (s : AppState) (p : Platform), s.showSettings = true → ¬ s.activeTab = "" →
        s.tempTabs.find? (fun r => r.id == s.activeTab) = none →
        s.platforms.find? (fun r => r.id == s.activeTab && !r.hidden) = some p →
        s.platforms.find? (fun r => r.id == s.activeTab) = some p →
        ¬ jsTrim p.url = "" →
        (settingsToggleStep s).calls
          = s.calls ++ [BridgeCall.showOrCreate p.id p.url 78,
              BridgeCall.showOrCreate p.id p.url 70])
    ∧ (∀ (s : AppState) (p : Platform), s.showSettings = true → ¬ s.activeTab = "" →
        s.tempTabs.find? (fun r => r.id == s.activeTab) = none →
        s.platforms.find? (fun r => r.id == s.activeTab && !r.hidden) = some p →
        s.platforms.find? (fun r => r.id == s.activeTab) = some p →
        jsTrim p.url = "" →
        (settingsToggleStep s).calls
          = s.calls ++ [BridgeCall.showOrCreate p.id p.url 78, BridgeCall.hideAll])
    ∧ (∀ (s : AppState) (q : Platform), s.showSettings = true → ¬ s.activeTab = "" →
        s.tempTabs.find? (fun r => r.id == s.activeTab) = some q →
        s.platforms.find? (fun r => r.id == s.activeTab && !r.hidden) = none →
        jsTrim q.url = "" →
        (settingsToggleStep s).calls = s.calls ++ [BridgeCall.hideAll])
    ∧ (∀ s : AppState, s.showSettings = true → s.activeTab = "" →
        s.platforms.find? (fun r => r.id == s.activeTab && !r.hidden) = none →
        (settingsToggleStep s).calls = s.calls)
    ∧ (∀ s : AppState, s.showSettings = true → ¬ s.activeTab = "" →
        s.tempTabs.find? (fun r => r.id == s.activeTab) = none →
        s.platforms.find? (fun r => r.id == s.activeTab && !r.hidden) = none →
        s.platforms.find? (fun r => r.id == s.activeTab) = none →
        (settingsToggleStep s).calls = s.calls) := by
  refine ⟨?_, ?_, ?_, ?_, ?_, ?_, ?_⟩
  · intro s h
    unfold settingsToggleStep
    have ht : toggleSettings s
        = { s with calls := s.calls ++ [BridgeCall.hideAll],
                   showSettings := true, showQuickAdd := false } := by
      unfold toggleSettings
      rw [if_pos h]
    rw [ht]
    rfl
  · intro s q h ha htmp hnone hurl
    unfold settingsToggleStep
    have ht : toggleSettings s = { s with showSettings := false } := by
      unfold toggleSettings
      rw [if_neg (by rw [h]; exact fun hc => Bool.noConfusion hc), hnone]
    rw [ht]
    unfold webviewEffect
    dsimp only
    rw [if_neg ha, htmp]
    dsimp only [Option.orElse]
    rw [if_neg hurl]
    simp
  · intro s p h ha htmp hfind hfind2 hurl
    unfold settingsToggleStep
    have ht : toggleSettings s
        = { s with showSettings := false,
                   calls := s.calls ++ [BridgeCall.showOrCreate p.id p.url 78] } := by
      unfold toggleSettings
      rw [if_neg (by rw [h]; exact fun hc => Bool.noConfusion hc), hfind]
    rw [ht]
    unfold webviewEffect
    dsimp only
    rw [if_neg ha, htmp, hfind2]
    dsimp only [Option.orElse]
    rw [if_neg hurl]
    simp
  · intro s p h ha htmp hfind hfind2 hurl
    unfold settingsToggleStep
    have ht : toggleSettings s
        = { s with showSettings := false,
                   calls := s.calls ++ [BridgeCall.showOrCreate p.id p.url 78] } := by
      unfold toggleSettings
      rw [if_neg (by rw [h]; exact fun hc => Bool.noConfusion hc), hfind]
    rw [ht]
    unfold webviewEffect
    dsimp only
    rw [if_neg ha, htmp, hfind2]
    dsimp only [Option.orElse]
    rw [if_pos hurl]
    simp
  · intro s q h ha htmp hnone hurl
    unfold settingsToggleStep
    have ht : toggleSettings s = { s with showSettings := false } := by
      unfold toggleSettings
      rw [if_neg (by rw [h]; exact fun hc => Bool.noConfusion hc), hnone]
    rw [ht]
    unfold webviewEffect
    dsimp only
    rw [if_neg ha, htmp]
    dsimp only [Option.orElse]
    rw [if_pos hurl]
    simp
  · intro s ha hact hnone
    unfold settingsToggleStep
    have ht : toggleSettings s = { s with showSettings := false } := by
      unfold toggleSettings
      rw [if_neg (by rw [ha]; exact fun hc => Bool.noConfusion hc), hnone]
    rw [ht]
    unfold webviewEffect
    dsimp only
    rw [if_pos hact, ite_self]
  · intro s h ha htmp hnone hnone2
    unfold settingsToggleStep
    have ht : toggleSettings s = { s with showSettings := false } := by
      unfold toggleSettings
      rw [if_neg (by rw [h]; exact fun hc => Bool.noConfusion hc), hnone]
    rw [ht]
    unfold webviewEffect
    dsimp only
    rw [if_neg ha, htmp, hnone2]
    dsimp only [Option.orElse]
    simp

/-- Witness for C4 at concrete states: the open branch, the
ephemeral-active close (one call), the visible-persistent close (two
calls), the blank-url persistent close (blank `showOrCreate` then
`hideAll`), and the empty-active close (no call). -/
theorem claim_c4_witness :
    (settingsToggleStep
        { platforms := [], tempTabs := [], activeTab := "", showSettings := false,
          showQuickAdd := false, calls := [] }).calls = [BridgeCall.hideAll]
    ∧ (settingsToggleStep
        { platforms := [],
          tempTabs := [{ id := "t4", name := "T", url := "https://t4.example" }],
          activeTab := "t4", showSettings := true, showQuickAdd := false,
          calls := [] }).calls
        = [BridgeCall.showOrCreate "t4" "https://t4.example" 70]
    ∧ (settingsToggleStep
        { platforms := [{ id := "c4", name := "C", url := "https://c4.example" }],
          tempTabs := [], activeTab := "c4", showSettings := true, showQuickAdd := false,
          calls := [] }).calls
        = [BridgeCall.showOrCreate "c4" "https://c4.example" 78,
           BridgeCall.showOrCreate "c4" "https://c4.example" 70]
    ∧ (settingsToggleStep
        { platforms := [{ id := "d4", name := "D", url := "" }],
          tempTabs := [], activeTab := "d4", showSettings := true, showQuickAdd := false,
          calls := [] }).calls
        = [BridgeCall.showOrCreate "d4" "" 78, BridgeCall.hideAll]
    ∧ (settingsToggleStep
        { platforms := [], tempTabs := [], activeTab := "", showSettings := true,
          showQuickAdd := false, calls := [] }).calls = [] := by
  refine ⟨claim_c4_theorem.1 _ rfl, ?_, ?_, ?_, claim_c4_theorem.2.2.2.2.2.1 _ rfl rfl rfl⟩
  · exact claim_c4_theorem.2.1 _
      { id := "t4", name := "T", url := "https://t4.example" }
      rfl (by decide) rfl rfl (by decide)
  · exact claim_c4_theorem.2.2.1 _
      { id := "c4", name := "C", url := "https://c4.example" }
      rfl (by decide) rfl (by decide) (by decide) (by decide)
  · exact claim_c4_theorem.2.2.2.1 _
      { id := "d4", name := "D", url := "" }
      rfl (by decide) rfl (by decide) (by decide) rfl

/-! ## Hiding a persistent tab from the tab strip (C5) -/

/-- C5 (as stated) is false: `handleCloseTab` unconditionally issues the
bridge `destroy` operation before distinguishing ephemeral from persistent
tabs, so hiding a persistent tab does call `destroy` for it. -/
theorem claim_c5_counterexample :
    let s0 : AppState :=
      { platforms := [{ id := "a5", name := "A", url := "https://a5.example" },
                      { id := "b5", name := "B", url := "https://b5.example" }],
        tempTabs := [], activeTab := "a5", showSettings := false, showQuickAdd := false,
        calls := [] }
    BridgeCall.destroy "a5" ∈ (handleCloseTab "a5" s0).calls := by
  decide

/-- C5 amended: with two visible persistent tabs where the first is active,
closing the first in the tab strip marks it hidden, makes the second tab
active, and issues exactly one bridge `destroy` call for the closed tab. -/
theorem claim_c5_theorem (a b : Platform) (s : AppState)
    (hp : s.platforms = [a, b]) (ht : s.tempTabs = [])
    (hact : s.activeTab = a.id) (hah : a.hidden = false) (hbh : b.hidden = false)
    (hab : ¬ b.id = a.id) :
    (handleCloseTab a.id s).platforms = [{ a with hidden := true }, b]
    ∧ (handleCloseTab a.id s).activeTab = b.id
    ∧ (handleCloseTab a.id s).calls = s.calls ++ [BridgeCall.destroy a.id] := by
  unfold handleCloseTab
  rw [ht, hp, hact]
  simp [hah, hbh, hab, firstId]

/-- Witness for C5 at two concrete visible platforms. -/
theorem claim_c5_witness :
    let s0 : AppState :=
      { platforms := [{ id := "w5", name := "A", url := "https://w5.example" },
                      { id := "v5", name := "B", url := "https://v5.example" }],
        tempTabs := [], activeTab := "w5", showSettings := false, showQuickAdd := false,
        calls := [] }
    (handleCloseTab "w5" s0).platforms
        = [{ id := "w5", name := "A", url := "https://w5.example", hidden := true },
           { id := "v5", name := "B", url := "https://v5.example" }]
    ∧ (handleCloseTab "w5" s0).activeTab = "v5"
    ∧ (handleCloseTab "w5" s0).calls = [BridgeCall.destroy "w5"] := by
  intro s0
  exact claim_c5_theorem
    { id := "w5", name := "A", url := "https://w5.example" }
    { id := "v5", name := "B", url := "https://v5.example" }
    s0 rfl rfl rfl rfl rfl (by decide)

/-! ## Selection during the settings overlay (C9) -/

/-- C9 (as stated) is false: removing the active platform from the settings
panel while the overlay is open reassigns the active tab id. -/
theorem claim_c9_counterexample :
    let s0 : AppState :=
      { platforms := [{ id := "a9", name := "A", url := "https://a9.example" },
                      { id := "b9", name := "B", url := "https://b9.example" }],
        tempTabs := [], activeTab := "a9", showSettings := true, showQuickAdd := false,
        calls := [] }
    s0.showSettings = true
      ∧ (handleRemovePlatform "a9" s0).showSettings = true
      ∧ (handleRemovePlatform "a9" s0).activeTab ≠ s0.activeTab := by
  decide

/-- C9 amended: while the settings overlay is open registry mutations can
reassign the active id (see the counterexample), but the webview effect is
inert during the overlay — it issues no bridge call and changes nothing — so
the reassignment only takes visual effect when the overlay closes. -/
theorem claim_c9_theorem (s : AppState) (h : s.showSettings = true) : webviewEffect s = s := by
  unfold webviewEffect
  rw [if_pos h]

/-- Witness for C9 at a concrete overlay state. -/
theorem claim_c9_witness :
    webviewEffect
      { platforms := [{ id := "w9", name := "W", url := "https://w9.example" }],
        tempTabs := [], activeTab := "w9", showSettings := true, showQuickAdd := false,
        calls := [] }
      = { platforms := [{ id := "w9", name := "W", url := "https://w9.example" }],
          tempTabs := [], activeTab := "w9", showSettings := true, showQuickAdd := false,
          calls := [] } :=
  claim_c9_theorem _ rfl

/-! ## Reordering (C6) -/

theorem swapAjdAt_length {α : Type} (l : List α) (n : Nat) :
    (swapAdjAt l n).length = l.length :=
  (swapAdjAt_perm l n).length_eq

theorem swapAdjAt_get?_fst {α : Type} :
    ∀ (l : List α) (n : Nat), n + 1 < l.length →
      (swapAdjAt l n).get? n = l.get? (n + 1) := by
  intro l
  induction l with
  | nil => intro n h; cases h
  | cons x t ih =>
    intro n h
    cases t with
    | nil =>
      exact absurd h (by simp)
    | cons y r =>
      cases n with
      | zero => rfl
      | succ m =>
        show (swapAdjAt (y :: r) m).get? m = (y :: r).get? (m + 1)
        exact ih m (by simp at h ⊢; omega)

theorem swapAdjAt_get?_snd {α : Type} :
    ∀ (l : List α) (n : Nat), n + 1 < l.length →
      (swapAdjAt l n).get? (n + 1) = l.get? n := by
  intro l
  induction l with
  | nil => intro n h; cases h
  | cons x t ih =>
    intro n h
    cases t with
    | nil =>
      exact absurd h (by simp)
    | cons y r =>
      cases n with
      | zero => rfl
      | succ m =>
        show (swapAdjAt (y :: r) m).get? (m + 1) = (y :: r).get? m
        exact ih m (by simp at h ⊢; omega)

theorem swapAdjAt_get?_other {α : Type} :
    ∀ (l : List α) (n k : Nat), ¬ k = n → ¬ k = n + 1 →
      (swapAdjAt l n).get? k = l.get? k := by
  intro l
  induction l with
  | nil => intro n k _ _; rfl
  | cons x t ih =>
    intro n k h1 h2
    cases t with
    | nil => rfl
    | cons y r =>
      cases n with
      | zero =>
        match k, h1, h2 with
        | k + 2, _, _ => rfl
      | succ m =>
        cases k with
        | zero => rfl
        | succ j =>
          show (swapAdjAt (y :: r) m).get? j = (y :: r).get? j
          exact ih m j (fun hc => h1 (by omega)) (fun hc => h2 (by omega))

/-- C6: `handleMovePlatform` swaps the addressed element with its neighbour
(`up` with the previous one, `down` with the next), leaves every other
position unchanged, preserves the length and the multiset of records, is a
no-op at both boundaries, and touches neither the ephemeral list nor the
active id. -/
theorem claim_c6_theorem (s : AppState) (index : Nat) :
    handleMovePlatform 0 MoveDir.up s = s
    ∧ (s.platforms ≠ [] → handleMovePlatform (s.platforms.length - 1) MoveDir.down s = s)
    ∧ (0 < index → index < s.platforms.length →
        (handleMovePlatform index MoveDir.up s).platforms.get? (index - 1)
            = s.platforms.get? index
        ∧ (handleMovePlatform index MoveDir.up s).platforms.get? index
            = s.platforms.get? (index - 1)
        ∧ (∀ k, ¬ k = index - 1 → ¬ k = index →
            (handleMovePlatform index MoveDir.up s).platforms.get? k = s.platforms.get? k)
        ∧ (handleMovePlatform index MoveDir.up s).platforms.length = s.platforms.length)
    ∧ (index + 1 < s.platforms.length →
        (handleMovePlatform index MoveDir.down s).platforms.get? index
            = s.platforms.get? (index + 1)
        ∧ (handleMovePlatform index MoveDir.down s).platforms.get? (index + 1)
            = s.platforms.get? index
        ∧ (∀ k, ¬ k = index → ¬ k = index + 1 →
            (handleMovePlatform index MoveDir.down s).platforms.get? k = s.platforms.get? k)
        ∧ (handleMovePlatform index MoveDir.down s).platforms.length = s.platforms.length)
    ∧ List.Perm (handleMovePlatform index MoveDir.up s).platforms s.platforms
    ∧ List.Perm (handleMovePlatform index MoveDir.down s).platforms s.platforms
    ∧ (handleMovePlatform index MoveDir.up s).tempTabs = s.tempTabs
    ∧ (handleMovePlatform index MoveDir.up s).activeTab = s.activeTab := by
  refine ⟨?_, ?_, ?_, ?_, ?_, ?_, ?_, ?_⟩
  · unfold handleMovePlatform
    rw [if_neg (by omega)]
  · intro hne
    have hlen : s.platforms.length - 1 + 1 = s.platforms.length :=
      Nat.succ_pred_eq_of_pos (List.length_pos.2 hne)
    unfold handleMovePlatform
    rw [hlen, if_neg (Nat.lt_irrefl s.platforms.length)]
  · intro h0 h1
    have hup : (handleMovePlatform index MoveDir.up s).platforms
        = swapAdjAt s.platforms (index - 1) := by
      unfold handleMovePlatform
      rw [if_pos h0]
    have hn : index - 1 + 1 = index := Nat.succ_pred_eq_of_pos h0
    have hb : index - 1 + 1 < s.platforms.length := by omega
    refine ⟨?_, ?_, ?_, ?_⟩
    · rw [hup]
      have := swapAdjAt_get?_fst s.platforms (index - 1) hb
      rw [hn] at this
      exact this
    · rw [hup]
      have := swapAdjAt_get?_snd s.platforms (index - 1) hb
      rw [hn] at this
      exact this
    · intro k hk1 hk2
      rw [hup]
      exact swapAdjAt_get?_other s.platforms (index - 1) k hk1 (by omega)
    · rw [hup]
      exact swapAjdAt_length s.platforms (index - 1)
  · intro h1
    have hdn : (handleMovePlatform index MoveDir.down s).platforms
        = swapAdjAt s.platforms index := by
      unfold handleMovePlatform
      rw [if_pos h1]
    refine ⟨?_, ?_, ?_, ?_⟩
    · rw [hdn]
      exact swapAdjAt_get?_fst s.platforms index h1
    · rw [hdn]
      exact swapAdjAt_get?_snd s.platforms index h1
    · intro k hk1 hk2
      rw [hdn]
      exact swapAdjAt_get?_other s.platforms index k hk1 hk2
    · rw [hdn]
      exact swapAjdAt_length s.platforms index
  · unfold handleMovePlatform
    dsimp only
    by_cases h0 : 0 < index
    · rw [if_pos h0]
      exact swapAdjAt_perm _ _
    · rw [if_neg h0]
  · unfold handleMovePlatform
    dsimp only
    by_cases h1 : index + 1 < s.platforms.length
    · rw [if_pos h1]
      exact swapAdjAt_perm _ _
    · rw [if_neg h1]
  · rfl
  · rfl

/-- Witness for C6 on a three-element list: moving index 1 up swaps the first
two records and moving index 2 down is a no-op. -/
theorem claim_c6_witness :
    let s0 : AppState :=
      { platforms := [{ id := "m1", name := "1", url := "https://m1.example" },
                      { id := "m2", name := "2", url := "https://m2.example" },
                      { id := "m3", name := "3", url := "https://m3.example" }],
        tempTabs := [], activeTab := "m1", showSettings := false, showQuickAdd := false,
        calls := [] }
    (handleMovePlatform 1 MoveDir.up s0).platforms.get? 0 = s0.platforms.get? 1
    ∧ (handleMovePlatform 1 MoveDir.up s0).platforms.get? 1 = s0.platforms.get? 0
    ∧ (handleMovePlatform 1 MoveDir.up s0).platforms.get? 2 = s0.platforms.get? 2
    ∧ handleMovePlatform 0 MoveDir.up s0 = s0
    ∧ handleMovePlatform (s0.platforms.length - 1) MoveDir.down s0 = s0 := by
  intro s0
  have h := claim_c6_theorem s0 1
  have hswap := h.2.2.1 (by decide) (by decide)
  exact ⟨hswap.1, hswap.2.1, hswap.2.2.1 2 (by decide) (by decide),
    h.1, h.2.1 (by decide)⟩

/-! ## The persistence startup protocol (C3) -/

theorem persist_no_write :
    ∀ (evs : List PersistEvent) (s : PersistState),
      s.inited = false → (∀ e ∈ evs, e.isLoad = false) →
      (evs.foldl persistStep s).writes = s.writes
        ∧ (evs.foldl persistStep s).inited = false := by
  intro evs
  induction evs with
  | nil => intro s h1 _; exact ⟨rfl, h1⟩
  | cons e t ih =>
    intro s h1 h2
    cases e with
    | load l =>
      have := h2 _ (List.mem_cons_self _ _)
      simp [PersistEvent.isLoad] at this
    | mutate f =>
      have hstep : persistStep s (PersistEvent.mutate f)
          = { s with platforms := f s.platforms } := by
        simp only [persistStep]
        rw [if_neg (by rw [h1]; exact fun hc => Bool.noConfusion hc)]
      rw [List.foldl_cons, hstep]
      exact ih _ h1 (fun e he => h2 e (List.mem_cons_of_mem _ he))

theorem persist_inited_mono :
    ∀ (evs : List PersistEvent) (s : PersistState), s.inited = true →
      (evs.foldl persistStep s).inited = true := by
  intro evs
  induction evs with
  | nil => intro s h; exact h
  | cons e t ih =>
    intro s h
    cases e with
    | load l => exact ih _ rfl
    | mutate f =>
      have hstep : persistStep s (PersistEvent.mutate f)
          = { s with platforms := f s.platforms, writes := s.writes ++ [f s.platforms] } := by
        simp only [persistStep]
        rw [if_pos h]
      rw [List.foldl_cons, hstep]
      exact ih _ h

theorem persist_load_sets :
    ∀ (evs : List PersistEvent) (s : PersistState) (l : List Platform),
      PersistEvent.load l ∈ evs → (evs.foldl persistStep s).inited = true := by
  intro evs
  induction evs with
  | nil => intro s l h; exact absurd h (List.not_mem_nil _)
  | cons e t ih =>
    intro s l h
    rcases List.mem_cons.1 h with heq | hmem
    · cases heq.symm ▸ rfl.trans (rfl : e = e) with
      | _ => rw [← heq]; exact persist_inited_mono t _ rfl
    · exact ih _ l hmem

/-- C3: in every event sequence from startup, no platform-list write is
issued before the initial load resolves; once it has resolved the flag is
set, stays set, and every further mutation appends exactly one write of the
mutated list to the gateway log. -/
theorem claim_c3_theorem :
    (∀ evs : List PersistEvent, (∀ e ∈ evs, e.isLoad = false) → (persistRun evs).writes = [])
    ∧ (∀ (evs : List PersistEvent) (f : List Platform → List Platform),
        (persistRun evs).inited = true →
        (persistRun (evs ++ [PersistEvent.mutate f])).writes
          = (persistRun evs).writes ++ [f (persistRun evs).platforms])
    ∧ (∀ (evs : List PersistEvent) (l : List Platform),
        PersistEvent.load l ∈ evs → (persistRun evs).inited = true) := by
  refine ⟨?_, ?_, ?_⟩
  · intro evs h
    exact (persist_no_write evs persistInit rfl h).1
  · intro evs f h
    have happ : persistRun (evs ++ [PersistEvent.mutate f])
        = persistStep (persistRun evs) (PersistEvent.mutate f) := by
      unfold persistRun
      rw [List.foldl_append]
      rfl
    have hstep : persistStep (persistRun evs) (PersistEvent.mutate f)
        = { platforms := f (persistRun evs).platforms,
            inited := (persistRun evs).inited,
            writes := (persistRun evs).writes ++ [f (persistRun evs).platforms] } := by
      simp only [persistStep]
      rw [if_pos h]
    rw [happ, hstep]
  · intro evs l h
    exact persist_load_sets evs persistInit l h

/-- Witness for C3: one mutation before the load writes nothing; after the
load resolves, one mutation appends exactly one write. -/
theorem claim_c3_witness :
    (persistRun [PersistEvent.mutate
        (fun l => l ++ [{ id := "w3", name := "W", url := "https://w3.example" }])]).writes = []
    ∧ (persistRun [PersistEvent.load
        [{ id := "w3", name := "W", url := "https://w3.example" }]]).inited = true
    ∧ (persistRun ([PersistEvent.load
          [{ id := "w3", name := "W", url := "https://w3.example" }]]
        ++ [PersistEvent.mutate
          (fun l => l ++ [{ id := "x3", name := "X", url := "https://x3.example" }])])).writes
      = (persistRun [PersistEvent.load
          [{ id := "w3", name := "W", url := "https://w3.example" }]]).writes
        ++ [(persistRun [PersistEvent.load
            [{ id := "w3", name := "W", url := "https://w3.example" }]]).platforms
          ++ [{ id := "x3", name := "X", url := "https://x3.example" }]] := by
  refine ⟨?_, ?_, ?_⟩
  · exact claim_c3_theorem.1 _ (by intro e he; rw [List.mem_singleton] at he; rw [he]; rfl)
  · exact claim_c3_theorem.2.2 _ _ (List.mem_singleton.2 rfl)
  · exact claim_c3_theorem.2.1 _ _ (claim_c3_theorem.2.2 _ _ (List.mem_singleton.2 rfl))

/-! ## Startup load and legacy migration (C7) -/

/-- C7: the legacy location is consulted exactly when the primary read is
unusable (failed, non-array, or empty); a usable primary read is returned
as-is with no legacy read; a usable legacy read is returned and written back
to the primary location; when both are unusable the load resolves to the
empty list with no migration write; and no path ever writes the legacy
location. -/
theorem claim_c7_theorem (p l : StoreRead) :
    ((loadPlatformsAsync p l).legacyRead = true ↔ usable p = none)
    ∧ (∀ d, usable p = some d →
        (loadPlatformsAsync p l).result = d ∧ (loadPlatformsAsync p l).legacyRead = false
          ∧ (loadPlatformsAsync p l).wrotePrimary = false)
    ∧ (∀ d, usable p = none → usable l = some d →
        (loadPlatformsAsync p l).result = d ∧ (loadPlatformsAsync p l).wrotePrimary = true)
    ∧ (usable p = none → usable l = none →
        (loadPlatformsAsync p l).result = [] ∧ (loadPlatformsAsync p l).wrotePrimary = false)
    ∧ (loadPlatformsAsync p l).wroteLegacy = false := by
  cases hp : usable p <;> cases hl : usable l <;>
    simp [loadPlatformsAsync, hp, hl]

/-- Witness for C7: unusable primary plus a usable legacy array yields the
legacy data and one migration write to the primary location. -/
theorem claim_c7_witness :
    (loadPlatformsAsync StoreRead.err
        (StoreRead.arr [{ id := "m7", name := "M", url := "https://m7.example" }])).result
      = [{ id := "m7", name := "M", url := "https://m7.example" }]
    ∧ (loadPlatformsAsync StoreRead.err
        (StoreRead.arr [{ id := "m7", name := "M", url := "https://m7.example" }])).wrotePrimary
      = true
    ∧ ((loadPlatformsAsync StoreRead.err
        (StoreRead.arr [{ id := "m7", name := "M", url := "https://m7.example" }])).legacyRead
      = true ↔ usable StoreRead.err = none) := by
  refine ⟨?_, ?_, ?_⟩
  · exact ((claim_c7_theorem StoreRead.err
      (StoreRead.arr [{ id := "m7", name := "M", url := "https://m7.example" }])).2.2.1
      [{ id := "m7", name := "M", url := "https://m7.example" }] rfl rfl).1
  · exact ((claim_c7_theorem StoreRead.err
      (StoreRead.arr [{ id := "m7", name := "M", url := "https://m7.example" }])).2.2.1
      [{ id := "m7", name := "M", url := "https://m7.example" }] rfl rfl).2
  · exact (claim_c7_theorem StoreRead.err
      (StoreRead.arr [{ id := "m7", name := "M", url := "https://m7.example" }])).1

/-! ## Inbound new-tab requests (C8) -/

/-- C8: a non-empty `new_tab_request` payload appends, in any state, exactly
one ephemeral tab carrying the delivered url, named by `deriveNameFromUrl`,
and makes it active without touching the platform list; and whenever the url
has a hostname whose `www.`-stripped form is non-empty, that derived name is
precisely the stripped hostname. -/
theorem claim_c8_theorem :
    (∀ (s : AppState) (url : String) (now : Nat), ¬ url = "" →
      (newTabRequest url now s).tempTabs
          = s.tempTabs
            ++ [({ id := "tmp-" ++ toString now, name := deriveNameFromUrl url, url := url } : Platform)]
        ∧ (newTabRequest url now s).activeTab = "tmp-" ++ toString now
        ∧ (newTabRequest url now s).platforms = s.platforms)
    ∧ (∀ url h : String, urlHostname url = some h → ¬ stripWww h = "" →
        deriveNameFromUrl url = stripWww h) := by
  constructor
  · intro s url now hurl
    unfold newTabRequest
    rw [if_neg hurl]
    exact ⟨rfl, rfl, rfl⟩
  · intro url h h1 h2
    unfold deriveNameFromUrl
    rw [h1]
    show (if stripWww h = "" then "新标签" else stripWww h) = stripWww h
    rw [if_neg h2]

/-- Witness for C8 at the specification's example url. -/
theorem claim_c8_witness :
    (newTabRequest "https://example.com/x" 7
        { platforms := [], tempTabs := [], activeTab := "", showSettings := false,
          showQuickAdd := false, calls := [] }).activeTab = "tmp-" ++ toString 7
    ∧ deriveNameFromUrl "https://example.com/x" = "example.com" := by
  constructor
  · exact (claim_c8_theorem.1 _ "https://example.com/x" 7 (by decide)).2.1
  · have h := claim_c8_theorem.2 "https://example.com/x" "example.com" (by decide) (by decide)
    rw [h]
    decide

end AnyBrain
